import Mathlib

/-!
Shallow embedding of `langchain_community/chat_message_histories/astradb.py`
(`AstraDBChatMessageHistory`): a session-scoped durable message log over a
schema-less document collection.  The collection is modelled as the list of
documents it holds, in insertion order (the order the driver's paginated
retrieval yields them in); the wall clock is modelled by passing the sequence
of `time.time()` readings as an explicit argument.
-/

namespace AstraChat

/-- Modelled from the spec: the domain message object model of
`langchain_core.messages` (not under `src/`).  The codec embeds a type
discriminator so decoding needs no external context; a handful of concrete
message kinds suffices to express the round-trip and failure laws. -/
inductive BaseMessage where
  | human (content : String)
  | ai (content : String)
  | system (content : String)
  | chat (role : String) (content : String)
deriving DecidableEq, Repr

/-- Modelled from the spec: the JSON-serializable mapping produced by
`message_to_dict` — a type discriminator, the content, and an optional role. -/
structure MsgDict where
  type : String
  content : String
  role : Option String
deriving DecidableEq, Repr

/-- Modelled from the spec: a stored textual blob.  A blob is either the JSON
text of a message dict, or malformed text that `json.loads` rejects. -/
inductive Blob where
  | json (d : MsgDict)
  | malformed (raw : String)
deriving DecidableEq, Repr

/-- Errors surfaced by the store layer. -/
inductive StoreError where
  | jsonError (raw : String)
  | unknownType (d : MsgDict)
  | notImplemented (msg : String)
deriving DecidableEq, Repr

/-- Modelled from the spec: `message_to_dict` — deterministic, lossless,
embeds the type discriminator. -/
def message_to_dict : BaseMessage → MsgDict
  | .human c => ⟨"human", c, none⟩
  | .ai c => ⟨"ai", c, none⟩
  | .system c => ⟨"system", c, none⟩
  | .chat r c => ⟨"chat", c, some r⟩

/-- Modelled from the spec: converting one dict back to a message; fails on an
unknown message type. -/
def message_from_dict (d : MsgDict) : Except StoreError BaseMessage :=
  match d.type, d.role with
  | "human", _ => .ok (.human d.content)
  | "ai", _ => .ok (.ai d.content)
  | "system", _ => .ok (.system d.content)
  | "chat", some r => .ok (.chat r d.content)
  | _, _ => .error (.unknownType d)

/-- Modelled from the spec: `json.dumps` on a message dict. -/
def json_dumps (d : MsgDict) : Blob := .json d

/-- Modelled from the spec: `json.loads`; fails on malformed text. -/
def json_loads : Blob → Except StoreError MsgDict
  | .json d => .ok d
  | .malformed raw => .error (.jsonError raw)

/-- The first pass of the read path: `[json.loads(b) for b in blobs]` — the
comprehension aborts at the first parse failure. -/
def loadsAll : List Blob → Except StoreError (List MsgDict)
  | [] => .ok []
  | b :: bs =>
    match json_loads b with
    | .error e => .error e
    | .ok d =>
      match loadsAll bs with
      | .error e => .error e
      | .ok ds => .ok (d :: ds)

/-- Modelled from the spec: `messages_from_dict` — converts every dict,
aborting at the first unknown type. -/
def messages_from_dict : List MsgDict → Except StoreError (List BaseMessage)
  | [] => .ok []
  | d :: ds =>
    match message_from_dict d with
    | .error e => .error e
    | .ok m =>
      match messages_from_dict ds with
      | .error e => .error e
      | .ok ms => .ok (m :: ms)

/-- The spec's `encode`: `json.dumps(message_to_dict(message))`. -/
def encode (m : BaseMessage) : Blob := json_dumps (message_to_dict m)

/-- The spec's `decode`: `json.loads` followed by dict-to-message conversion. -/
def decode (b : Blob) : Except StoreError BaseMessage :=
  match json_loads b with
  | .error e => .error e
  | .ok d => message_from_dict d

/-- One persisted document: `{"timestamp": ..., "session_id": ..., "body_blob": ...}`.
Timestamps are modelled as natural numbers (abstract clock readings). -/
structure MsgRecord where
  timestamp : Nat
  session_id : String
  body_blob : Blob
deriving DecidableEq, Repr

/-- The backing collection: the list of documents it holds, in the order a
fully drained `paginated_find` yields them. -/
structure StoreState where
  collection : List MsgRecord
deriving DecidableEq, Repr

/-- `collection.paginated_find(filter={"session_id": sid}, projection=...)`,
fully drained: every document whose `session_id` matches, in collection
order. -/
def paginated_find (coll : List MsgRecord) (sid : String) : List MsgRecord :=
  coll.filter (fun d => d.session_id == sid)

/-- The timestamp key order used by `sorted(..., key=lambda d: d["timestamp"])`. -/
def tsLe (a b : MsgRecord) : Prop := a.timestamp ≤ b.timestamp

instance : DecidableRel tsLe := fun a b => Nat.decLe a.timestamp b.timestamp

/-- Python's `sorted` with the timestamp key: a stable sort, modelled by
insertion sort with the (total, transitive) key order. -/
def sortByTs (l : List MsgRecord) : List MsgRecord :=
  List.insertionSort tsLe l

/-- `messages` (the blocking read): ensure setup, drain the filtered find,
sort by timestamp, extract the blobs, `json.loads` each, then
`messages_from_dict`. -/
def get_messages (st : StoreState) (sid : String) : Except StoreError (List BaseMessage) :=
  let message_blobs :=
    (sortByTs (paginated_find st.collection sid)).map (fun d => d.body_blob)
  match loadsAll message_blobs with
  | .error e => .error e
  | .ok items => messages_from_dict items

/-- One synthesized document of an append batch: current clock reading,
the store's session id, and the encoded message body. -/
def mkDoc (sid : String) (t : Nat) (m : BaseMessage) : MsgRecord :=
  ⟨t, sid, json_dumps (message_to_dict m)⟩

/-- `add_messages`: one document per message, each stamped with the next
wall-clock reading, submitted as one batched insert.  `ts` is the sequence of
`time.time()` readings, one per message. -/
def add_messages (st : StoreState) (sid : String) (msgs : List BaseMessage)
    (ts : List Nat) : StoreState :=
  ⟨st.collection ++ List.zipWith (mkDoc sid) ts msgs⟩

/-- `clear`: `delete_many(filter={"session_id": sid})` — every matching
document is removed, nothing else is touched. -/
def clear (st : StoreState) (sid : String) : StoreState :=
  ⟨st.collection.filter (fun d => !(d.session_id == sid))⟩

/-- The `messages` property setter: unconditionally raises
`NotImplementedError("Use add_messages instead")`, before any collection
write. -/
def set_messages (st : StoreState) (msgs : List BaseMessage) :
    Except StoreError StoreState :=
  .error (.notImplemented "Use add_messages instead")

/-- `aget_messages` (the non-blocking read): drain the async find into a
list, sort it, extract the blobs, `json.loads` each, then
`messages_from_dict`. -/
def aget_messages (st : StoreState) (sid : String) : Except StoreError (List BaseMessage) :=
  let docs := paginated_find st.collection sid
  let sorted_docs := sortByTs docs
  let message_blobs := sorted_docs.map (fun d => d.body_blob)
  match loadsAll message_blobs with
  | .error e => .error e
  | .ok items => messages_from_dict items

/-- `aadd_messages`: same document synthesis and batched insert as
`add_messages`, on the async surface. -/
def aadd_messages (st : StoreState) (sid : String) (msgs : List BaseMessage)
    (ts : List Nat) : StoreState :=
  ⟨st.collection ++ List.zipWith (mkDoc sid) ts msgs⟩

/-- `aclear`: same bulk delete as `clear`, on the async surface. -/
def aclear (st : StoreState) (sid : String) : StoreState :=
  ⟨st.collection.filter (fun d => !(d.session_id == sid))⟩

instance : IsTotal MsgRecord tsLe :=
  ⟨fun a b => Nat.le_total a.timestamp b.timestamp⟩

instance : IsTrans MsgRecord tsLe :=
  ⟨fun _ _ _ hab hbc => Nat.le_trans hab hbc⟩

lemma message_from_to_dict (m : BaseMessage) :
    message_from_dict (message_to_dict m) = .ok m := by
  cases m <;> rfl

lemma sortByTs_perm (l : List MsgRecord) : (sortByTs l).Perm l :=
  List.perm_insertionSort tsLe l

lemma sortByTs_sorted (l : List MsgRecord) : List.Pairwise tsLe (sortByTs l) :=
  List.sorted_insertionSort tsLe l

lemma filter_orderedInsert_ts (d : MsgRecord) (l : List MsgRecord) (t : Nat) :
    (List.orderedInsert tsLe d l).filter (fun e => e.timestamp == t)
      = if d.timestamp = t
          then d :: l.filter (fun e => e.timestamp == t)
          else l.filter (fun e => e.timestamp == t) := by
  induction l with
  | nil => by_cases h : d.timestamp = t <;> simp [List.orderedInsert, h]
  | cons e es ih =>
    by_cases hde : tsLe d e
    · by_cases hd : d.timestamp = t <;>
        simp [List.orderedInsert, hde, List.filter_cons, hd]
    · have hlt : e.timestamp < d.timestamp := by
        simpa [tsLe] using Nat.lt_of_not_le (fun h => hde h)
      by_cases hd : d.timestamp = t
      · have hne : ¬ e.timestamp = t := by omega
        simp [List.orderedInsert, hde, List.filter_cons, hne, ih, hd]
      · by_cases he : e.timestamp = t <;>
          simp [List.orderedInsert, hde, List.filter_cons, he, ih, hd]

lemma sortByTs_filter_ts (l : List MsgRecord) (t : Nat) :
    (sortByTs l).filter (fun e => e.timestamp == t)
      = l.filter (fun e => e.timestamp == t) := by
  induction l with
  | nil => rfl
  | cons d ds ih =>
    by_cases hd : d.timestamp = t <;>
      simp [sortByTs, List.insertionSort, filter_orderedInsert_ts, hd,
        List.filter_cons, ih.symm]

lemma loadsAll_err_of_mem {bs : List Blob} {b : Blob} {e : StoreError}
    (hb : b ∈ bs) (he : json_loads b = .error e) :
    ∃ e2, loadsAll bs = .error e2 := by
  induction bs with
  | nil => cases hb
  | cons b0 bs0 ih =>
    rcases List.mem_cons.mp hb with h | h
    · subst h
      exact ⟨e, by simp [loadsAll, he]⟩
    · rcases ih h with ⟨e2, h2⟩
      cases h0 : json_loads b0 with
      | error e0 => exact ⟨e0, by simp [loadsAll, h0]⟩
      | ok d0 => exact ⟨e2, by simp [loadsAll, h0, h2]⟩

lemma loadsAll_ok_mem {bs : List Blob} {items : List MsgDict} {b : Blob}
    (hok : loadsAll bs = .ok items) (hb : b ∈ bs) :
    ∃ d, json_loads b = .ok d ∧ d ∈ items := by
  induction bs generalizing items with
  | nil => cases hb
  | cons b0 bs0 ih =>
    cases h0 : json_loads b0 with
    | error e0 => simp [loadsAll, h0] at hok
    | ok d0 =>
      cases h1 : loadsAll bs0 with
      | error e1 => simp [loadsAll, h0, h1] at hok
      | ok ds =>
        have hitems : items = d0 :: ds := by
          simpa [loadsAll, h0, h1] using hok.symm
        subst hitems
        rcases List.mem_cons.mp hb with h | h
        · subst h
          exact ⟨d0, h0, List.mem_cons_self _ _⟩
        · rcases ih h1 h with ⟨d, hd1, hd2⟩
          exact ⟨d, hd1, List.mem_cons_of_mem _ hd2⟩

lemma messages_from_dict_err_of_mem {items : List MsgDict} {d : MsgDict} {e : StoreError}
    (hd : d ∈ items) (he : message_from_dict d = .error e) :
    ∃ e2, messages_from_dict items = .error e2 := by
  induction items with
  | nil => cases hd
  | cons d0 ds ih =>
    rcases List.mem_cons.mp hd with h | h
    · subst h
      exact ⟨e, by simp [messages_from_dict, he]⟩
    · rcases ih h with ⟨e2, h2⟩
      cases h0 : message_from_dict d0 with
      | error e0 => exact ⟨e0, by simp [messages_from_dict, h0]⟩
      | ok m0 => exact ⟨e2, by simp [messages_from_dict, h0, h2]⟩

lemma mem_zipWith_mkDoc {sid : String} {d : MsgRecord} :
    ∀ {ts : List Nat} {msgs : List BaseMessage},
      d ∈ List.zipWith (mkDoc sid) ts msgs → d.session_id = sid := by
  intro ts
  induction ts with
  | nil => intro msgs h; cases h
  | cons t ts0 ih =>
    intro msgs h
    cases msgs with
    | nil => cases h
    | cons m ms =>
      rcases List.mem_cons.mp h with h | h
      · subst h; rfl
      · exact ih h

lemma map_timestamp_zipWith (sid : String) :
    ∀ (ts : List Nat) (msgs : List BaseMessage), ts.length = msgs.length →
      (List.zipWith (mkDoc sid) ts msgs).map (fun d => d.timestamp) = ts := by
  intro ts
  induction ts with
  | nil => intro msgs _; rfl
  | cons t ts0 ih =>
    intro msgs hlen
    cases msgs with
    | nil => simp at hlen
    | cons m ms =>
      simp only [List.length_cons, Nat.succ.injEq] at hlen
      simp [mkDoc, ih ms hlen]

/-- C1: appending `[m1, m2]` for a session the collection previously held no
records for, with monotonic clock readings, then reading that session, yields
exactly `[m1, m2]` in the appended order. -/
theorem append_then_read (st : StoreState) (S : String) (m1 m2 : BaseMessage)
    (t1 t2 : Nat) (hS : ∀ d ∈ st.collection, d.session_id ≠ S) (h12 : t1 ≤ t2) :
    get_messages (add_messages st S [m1, m2] [t1, t2]) S = .ok [m1, m2] := by
  have hempty : st.collection.filter (fun d => d.session_id == S) = [] := by
    rw [List.filter_eq_nil_iff]
    intro d hd
    simpa using hS d hd
  have hfind : paginated_find (add_messages st S [m1, m2] [t1, t2]).collection S
      = [mkDoc S t1 m1, mkDoc S t2 m2] := by
    simp [add_messages, paginated_find, List.filter_append, hempty, mkDoc]
  have hsort : sortByTs [mkDoc S t1 m1, mkDoc S t2 m2]
      = [mkDoc S t1 m1, mkDoc S t2 m2] := by
    simp [sortByTs, List.insertionSort, List.orderedInsert, tsLe, mkDoc, h12]
  simp only [get_messages, hfind, hsort]
  simp [mkDoc, json_dumps, loadsAll, json_loads, messages_from_dict,
    message_from_to_dict]

/-- Witness for C1 at a concrete store, session, messages and clock. -/
theorem append_then_read_witness :
    get_messages (add_messages ⟨[]⟩ "s" [.human "a", .ai "b"] [1, 2]) "s"
      = .ok [.human "a", .ai "b"] :=
  append_then_read ⟨[]⟩ "s" (.human "a") (.ai "b") 1 2 (by decide) (by decide)

/-- C2: a read returns the decoded bodies of exactly the session's records —
the sorted list is a permutation of the drained retrieval, it is ascending in
timestamp, ties keep the retrieval order (stability), and the result is the
decoding of that sorted list. -/
theorem read_exact_sorted_stable (st : StoreState) (S : String) :
    (sortByTs (paginated_find st.collection S)).Perm (paginated_find st.collection S)
    ∧ List.Pairwise tsLe (sortByTs (paginated_find st.collection S))
    ∧ (∀ t, (sortByTs (paginated_find st.collection S)).filter (fun d => d.timestamp == t)
        = (paginated_find st.collection S).filter (fun d => d.timestamp == t))
    ∧ get_messages st S =
        (match loadsAll ((sortByTs (paginated_find st.collection S)).map (fun d => d.body_blob)) with
         | .error e => .error e
         | .ok items => messages_from_dict items) :=
  ⟨sortByTs_perm _, sortByTs_sorted _, fun t => sortByTs_filter_ts _ t, rfl⟩

/-- C3: decoding the encoding of any message gives back the message:
`messages_from_dict (json.loads (json.dumps (message_to_dict m))) = m`. -/
theorem decode_encode_roundtrip (m : BaseMessage) : decode (encode m) = .ok m := by
  cases m <;> rfl

/-- C4: the non-blocking operations have exactly the semantics of their
blocking counterparts on every state, session and input batch. -/
theorem sync_async_parity (st : StoreState) (S : String) (msgs : List BaseMessage)
    (ts : List Nat) :
    aget_messages st S = get_messages st S
    ∧ aadd_messages st S msgs ts = add_messages st S msgs ts
    ∧ aclear st S = clear st S :=
  ⟨rfl, rfl, rfl⟩

/-- C5: after `clear S`, reading `S` gives the empty sequence, and every
other session's records — hence its read result — are unchanged. -/
theorem clear_scoped (st : StoreState) (S T : String) (hTS : T ≠ S) :
    get_messages (clear st S) S = .ok []
    ∧ paginated_find (clear st S).collection T = paginated_find st.collection T
    ∧ get_messages (clear st S) T = get_messages st T := by
  have h1 : paginated_find (clear st S).collection S = [] := by
    simp [clear, paginated_find, List.filter_filter]
  have h2 : paginated_find (clear st S).collection T = paginated_find st.collection T := by
    simp only [clear, paginated_find, List.filter_filter]
    apply List.filter_congr
    intro d _
    by_cases h : d.session_id = T
    · subst h
      simp [hTS]
    · simp [h]
  refine ⟨?_, h2, ?_⟩
  · simp only [get_messages, h1]
    rfl
  · simp only [get_messages, h2]

/-- Witness for C5 with two sessions, clearing one of them. -/
theorem clear_scoped_witness :
    get_messages (clear ⟨[⟨1, "a", encode (.human "x")⟩, ⟨2, "b", encode (.ai "y")⟩]⟩ "a") "a" = .ok []
    ∧ paginated_find (clear ⟨[⟨1, "a", encode (.human "x")⟩, ⟨2, "b", encode (.ai "y")⟩]⟩ "a").collection "b"
        = paginated_find (⟨[⟨1, "a", encode (.human "x")⟩, ⟨2, "b", encode (.ai "y")⟩]⟩ : StoreState).collection "b"
    ∧ get_messages (clear ⟨[⟨1, "a", encode (.human "x")⟩, ⟨2, "b", encode (.ai "y")⟩]⟩ "a") "b"
        = get_messages ⟨[⟨1, "a", encode (.human "x")⟩, ⟨2, "b", encode (.ai "y")⟩]⟩ "b" :=
  clear_scoped ⟨[⟨1, "a", encode (.human "x")⟩, ⟨2, "b", encode (.ai "y")⟩]⟩ "a" "b" (by decide)

/-- C6: appends are stamped with the writer's session id, and a read bound to
a different session neither retrieves the new records nor changes its result. -/
theorem session_isolation (st : StoreState) (A B : String) (msgs : List BaseMessage)
    (ts : List Nat) (hAB : A ≠ B) :
    (∀ d ∈ List.zipWith (mkDoc A) ts msgs, d.session_id = A)
    ∧ paginated_find (add_messages st A msgs ts).collection B = paginated_find st.collection B
    ∧ get_messages (add_messages st A msgs ts) B = get_messages st B := by
  have h2 : paginated_find (add_messages st A msgs ts).collection B
      = paginated_find st.collection B := by
    simp only [add_messages, paginated_find, List.filter_append]
    have hnil : (List.zipWith (mkDoc A) ts msgs).filter (fun d => d.session_id == B) = [] := by
      rw [List.filter_eq_nil_iff]
      intro d hd
      have hsid := mem_zipWith_mkDoc hd
      simp [hsid, hAB]
    rw [hnil, List.append_nil]
  exact ⟨fun d hd => mem_zipWith_mkDoc hd, h2, by simp only [get_messages, h2]⟩

/-- Witness for C6 at a concrete pair of distinct sessions. -/
theorem session_isolation_witness :
    (∀ d ∈ List.zipWith (mkDoc "a") [7] [BaseMessage.human "m"], d.session_id = "a")
    ∧ paginated_find (add_messages ⟨[⟨0, "b", encode (.system "z")⟩]⟩ "a" [.human "m"] [7]).collection "b"
        = paginated_find (⟨[⟨0, "b", encode (.system "z")⟩]⟩ : StoreState).collection "b"
    ∧ get_messages (add_messages ⟨[⟨0, "b", encode (.system "z")⟩]⟩ "a" [.human "m"] [7]) "b"
        = get_messages ⟨[⟨0, "b", encode (.system "z")⟩]⟩ "b" :=
  session_isolation ⟨[⟨0, "b", encode (.system "z")⟩]⟩ "a" "b" [.human "m"] [7] (by decide)

/-- C7: assigning a full history directly always raises
`NotImplementedError("Use add_messages instead")` and never produces a new
store state — no collection write happens. -/
theorem set_messages_rejected (st : StoreState) (msgs : List BaseMessage) :
    set_messages st msgs = .error (.notImplemented "Use add_messages instead")
    ∧ ∀ st2, set_messages st msgs ≠ .ok st2 :=
  ⟨rfl, fun st2 h => by simp [set_messages] at h⟩

/-- Witness for C7 at a concrete store and batch. -/
theorem set_messages_rejected_witness :
    set_messages ⟨[]⟩ [] = .error (.notImplemented "Use add_messages instead")
    ∧ ∀ st2, set_messages ⟨[]⟩ [] ≠ .ok st2 :=
  set_messages_rejected ⟨[]⟩ []

/-- C8: if any one retrieved body blob fails to decode (malformed JSON or
unknown message type), the whole read fails with an error and no partial
message sequence is returned. -/
theorem decode_failure_aborts (st : StoreState) (S : String)
    (h : ∃ d ∈ paginated_find st.collection S, ∃ e, decode d.body_blob = .error e) :
    (∃ e2, get_messages st S = .error e2) ∧ ∀ ms, get_messages st S ≠ .ok ms := by
  rcases h with ⟨d, hd, e, he⟩
  have hdmem : d ∈ sortByTs (paginated_find st.collection S) :=
    ((sortByTs_perm _).mem_iff).mpr hd
  have hbmem : d.body_blob
      ∈ (sortByTs (paginated_find st.collection S)).map (fun d => d.body_blob) :=
    List.mem_map_of_mem _ hdmem
  have herr : ∃ e2, get_messages st S = .error e2 := by
    cases hjl : json_loads d.body_blob with
    | error e0 =>
      rcases loadsAll_err_of_mem hbmem hjl with ⟨e2, h2⟩
      exact ⟨e2, by simp only [get_messages]; rw [h2]⟩
    | ok d0 =>
      have hmf : message_from_dict d0 = .error e := by
        simpa [decode, hjl] using he
      cases hload : loadsAll
          ((sortByTs (paginated_find st.collection S)).map (fun d => d.body_blob)) with
      | error e1 => exact ⟨e1, by simp only [get_messages]; rw [hload]⟩
      | ok items =>
        rcases loadsAll_ok_mem hload hbmem with ⟨d1, hd1, hd1mem⟩
        rw [hjl] at hd1
        injection hd1 with hdd
        subst hdd
        rcases messages_from_dict_err_of_mem hd1mem hmf with ⟨e2, h2⟩
        exact ⟨e2, by simp only [get_messages]; rw [hload]; exact h2⟩
  refine ⟨herr, ?_⟩
  rcases herr with ⟨e2, h2⟩
  intro ms hok
  rw [h2] at hok
  cases hok

/-- Witness for C8: one malformed stored blob makes the read fail. -/
theorem decode_failure_aborts_witness :
    (∃ e2, get_messages ⟨[⟨0, "s", .malformed "oops"⟩]⟩ "s" = .error e2)
    ∧ ∀ ms, get_messages ⟨[⟨0, "s", .malformed "oops"⟩]⟩ "s" ≠ .ok ms :=
  decode_failure_aborts ⟨[⟨0, "s", .malformed "oops"⟩]⟩ "s"
    ⟨⟨0, "s", .malformed "oops"⟩, by decide, ⟨.jsonError "oops", rfl⟩⟩

/-- C9: within one append batch the stamped timestamps are exactly the clock
readings, hence non-decreasing under a monotonic clock — but not guaranteed
strictly increasing, as equal readings are possible. -/
theorem batch_timestamps_nondecreasing (sid : String) (msgs : List BaseMessage)
    (ts : List Nat) (hlen : ts.length = msgs.length)
    (hmono : List.Pairwise (fun a b => a ≤ b) ts) :
    (List.zipWith (mkDoc sid) ts msgs).map (fun d => d.timestamp) = ts
    ∧ List.Pairwise (fun a b : MsgRecord => a.timestamp ≤ b.timestamp)
        (List.zipWith (mkDoc sid) ts msgs)
    ∧ ¬ ∀ (sid2 : String) (msgs2 : List BaseMessage) (ts2 : List Nat),
          ts2.length = msgs2.length → List.Pairwise (fun a b => a ≤ b) ts2 →
          List.Pairwise (fun a b : MsgRecord => a.timestamp < b.timestamp)
            (List.zipWith (mkDoc sid2) ts2 msgs2) := by
  have h1 := map_timestamp_zipWith sid ts msgs hlen
  refine ⟨h1, ?_, ?_⟩
  · have hmap := hmono
    rw [← h1] at hmap
    exact (List.pairwise_map).mp hmap
  · intro hall
    have h2 := hall "s" [.human "", .human ""] [0, 0] rfl (by decide)
    simp [mkDoc] at h2

/-- Witness for C9 with an equal-readings clock. -/
theorem batch_timestamps_nondecreasing_witness :
    (List.zipWith (mkDoc "s") [3, 3] [BaseMessage.human "a", BaseMessage.ai "b"]).map
        (fun d => d.timestamp) = [3, 3]
    ∧ List.Pairwise (fun a b : MsgRecord => a.timestamp ≤ b.timestamp)
        (List.zipWith (mkDoc "s") [3, 3] [BaseMessage.human "a", BaseMessage.ai "b"])
    ∧ ¬ ∀ (sid2 : String) (msgs2 : List BaseMessage) (ts2 : List Nat),
          ts2.length = msgs2.length → List.Pairwise (fun a b => a ≤ b) ts2 →
          List.Pairwise (fun a b : MsgRecord => a.timestamp < b.timestamp)
            (List.zipWith (mkDoc sid2) ts2 msgs2) :=
  batch_timestamps_nondecreasing "s" [.human "a", .ai "b"] [3, 3] rfl (by decide)

/-- C10: appending the empty batch synthesizes zero documents, issues the
batched insert with an empty list, raises nothing, and leaves every
session's stored history unchanged, on both call surfaces. -/
theorem add_empty_is_noop (st : StoreState) (sid : String) (ts : List Nat) :
    add_messages st sid [] ts = st ∧ aadd_messages st sid [] ts = st
    ∧ List.zipWith (mkDoc sid) ts [] = [] := by
  cases st
  refine ⟨?_, ?_, by simp⟩ <;> simp [add_messages, aadd_messages]

end AstraChat
